import Mathlib

set_option maxHeartbeats 1000000

/-!
Verification development for the syllabus-analyzer repository.

The development shallowly embeds the two core modules:
  - scripts/syllabus_extractor.py : PDF text normalization, the heuristic
    regex fallback parser, and the per-document extraction step of
    process_pdfs_batch (AI extraction with heuristic fallback).
  - backend/primo_integration.py : PrimoAPIClient.search_by_metadata and its
    helpers (search_single_item, parse_search_results, check_availability,
    determine_availability_status, extract_links, extract_location_info,
    extract_access_link).

External capabilities (the PDF library, the LLM, the HTTP transport) are
modeled as oracle parameters; everything the repository itself computes is
embedded as executable Lean definitions.  Strings are ASCII-modeled: the
Python regexes in the source only use ASCII character classes on the inputs
of interest, and Python str semantics on ASCII coincide with the model.
-/

namespace SA

/-! ## Heuristic extractor (scripts/syllabus_extractor.py)

The five regexes used by heuristic_parse:
  SEMESTER_RE   = \b(Spring|Summer|Fall|Winter)\b  (ignore-case)
  YEAR_RE       = (20\d\x7b2\x7d)
  COURSE_CODE_RE = ([A-Z]\x7b2,4\x7d[\s-]?\d\x7b3,4\x7d)
  EMAIL_RE      = [A-Za-z0-9._%+-]+@([A-Za-z0-9.-]+\.edu)
  INSTRUCTOR_RE = (?:Instructor|Professor|Dr\.|Teacher):\s*([^\n]+)  (ignore-case)
Each is embedded as a specialized leftmost-match scanner with Python re
backtracking semantics (leftmost starting position; at a position, greedy
quantifiers try the longest alternative first).
-/

/-- Python whitespace class \s restricted to ASCII. -/
def isPySpace (c : Char) : Bool :=
  c = ' ' || c = '\t' || c = '\n' || c = '\r' || c = '\x0b' || c = '\x0c'

/-- Python word-character class \w restricted to ASCII (used for \b). -/
def isWordChar (c : Char) : Bool :=
  c.isAlphanum || c = '_'

/-- Case-insensitive literal match: the pattern is given lowercase; on success
returns the matched slice of the input (original case) and the rest. -/
def matchCI : List Char → List Char → Option (List Char × List Char)
  | [], cs => some ([], cs)
  | _ :: _, [] => none
  | p :: ps, c :: cs =>
    if c.toLower = p then
      match matchCI ps cs with
      | some (m, r) => some (c :: m, r)
      | none => none
    else none

/-- Generic leftmost-match scanner: try the full pattern matcher at every
start position, leftmost first (Python re.search). -/
def scanFirst (f : List Char → Option (List Char)) : List Char → Option (List Char)
  | [] => none
  | c :: cs =>
    match f (c :: cs) with
    | some m => some m
    | none => scanFirst f cs

/-- A word boundary holds after the match if the input ended or the next
character is not a word character. -/
def boundaryAfter : List Char → Bool
  | [] => true
  | c :: _ => !(isWordChar c)

/-- The four semester words of SEMESTER_RE, lowercase, in alternation order. -/
def semesterWords : List (List Char) :=
  [['s','p','r','i','n','g'], ['s','u','m','m','e','r'],
   ['f','a','l','l'], ['w','i','n','t','e','r']]

/-- Try one alternation branch at the current position: the word must match
case-insensitively and be followed by a word boundary. -/
def tryWord (w : List Char) (cs : List Char) : Option (List Char) :=
  match matchCI w cs with
  | some (m, r) => if boundaryAfter r then some m else none
  | none => none

/-- Try the alternation branches in order at the current position. -/
def tryWords : List (List Char) → List Char → Option (List Char)
  | [], _ => none
  | w :: ws, cs =>
    match tryWord w cs with
    | some m => some m
    | none => tryWords ws cs

/-- Scanner for SEMESTER_RE.  The flag records whether the previous character
was a word character: the leading \b only allows a match when it was not
(every alternative starts with a letter, so the start of a match is always a
word character). -/
def semesterSearchAux : Bool → List Char → Option (List Char)
  | _, [] => none
  | prev, c :: cs =>
    match (if prev then none else tryWords semesterWords (c :: cs)) with
    | some m => some m
    | none => semesterSearchAux (isWordChar c) cs

/-- re.search of SEMESTER_RE; returns group 1 (the matched word, original
case). -/
def semesterSearch (cs : List Char) : Option (List Char) :=
  semesterSearchAux false cs

/-- Match of YEAR_RE at the current position: the literal 2, 0, then two
digits.  No word boundary is required by the pattern. -/
def yearAt : List Char → Option (List Char)
  | '2' :: '0' :: d1 :: d2 :: _ =>
    if d1.isDigit && d2.isDigit then some ['2', '0', d1, d2] else none
  | _ => none

/-- re.search of YEAR_RE; returns group 1. -/
def yearSearch (cs : List Char) : Option (List Char) :=
  scanFirst yearAt cs

/-- Greedy match of the digit tail \d\x7b3,4\x7d: four digits preferred over
three. -/
def tryDigits : List Char → Option (List Char)
  | d1 :: d2 :: d3 :: rest =>
    if d1.isDigit && d2.isDigit && d3.isDigit then
      match rest with
      | d4 :: _ => if d4.isDigit then some [d1, d2, d3, d4] else some [d1, d2, d3]
      | [] => some [d1, d2, d3]
    else none
  | _ => none

/-- Greedy match of [\s-]?\d\x7b3,4\x7d: the optional separator is consumed
first when present (a separator followed by no digit run cannot be rescued by
dropping it, since the separator itself is not a digit). -/
def tryCodeTail : List Char → Option (List Char)
  | [] => none
  | c :: cs =>
    if isPySpace c || c = '-' then
      match tryDigits cs with
      | some ds => some (c :: ds)
      | none => none
    else tryDigits (c :: cs)

/-- Backtracking over the letter-count L of [A-Z]\x7b2,4\x7d, longest first:
for each L from the fuel down to 2, match the tail after L letters. -/
def tryCodeLens (cs : List Char) : Nat → Option (List Char)
  | 0 => none
  | 1 => none
  | Nat.succ (Nat.succ k) =>
    match tryCodeTail (cs.drop (k + 2)) with
    | some tl => some (cs.take (k + 2) ++ tl)
    | none => tryCodeLens cs (k + 1)

/-- Match of COURSE_CODE_RE at the current position: up to four uppercase
letters are available to the greedy letter quantifier. -/
def tryCodeAt (cs : List Char) : Option (List Char) :=
  tryCodeLens cs (min (cs.takeWhile Char.isUpper).length 4)

/-- re.search of COURSE_CODE_RE; returns group 1. -/
def codeSearch (cs : List Char) : Option (List Char) :=
  scanFirst tryCodeAt cs

/-- The labels of INSTRUCTOR_RE, lowercase, in alternation order.  The colon
follows the label in the pattern. -/
def instructorLabels : List (List Char) :=
  [['i','n','s','t','r','u','c','t','o','r'],
   ['p','r','o','f','e','s','s','o','r'],
   ['d','r','.'],
   ['t','e','a','c','h','e','r']]

/-- After the colon: \s*([^\n]+) with backtracking.  The greedy \s* first
consumes the maximal whitespace run; if nothing is left, it hands back
characters one at a time until the head of the remainder is not a newline, in
which case the group is the run of non-newline characters from there (when
the remainder was whitespace only, that run is the single handed-back
character). -/
def afterColonGroup (r : List Char) : Option (List Char) :=
  if (r.dropWhile isPySpace).isEmpty then
    match ((r.takeWhile isPySpace).filter (fun c => c != '\n')).getLast? with
    | some c => some [c]
    | none => none
  else
    some ((r.dropWhile isPySpace).takeWhile (fun c => c != '\n'))

/-- Try one instructor label at the current position: label (ignore-case),
then the literal colon, then the whitespace-and-group tail. -/
def tryLabel (lbl : List Char) (cs : List Char) : Option (List Char) :=
  match matchCI lbl cs with
  | some (_, ':' :: r) => afterColonGroup r
  | _ => none

/-- Try all instructor labels in alternation order. -/
def tryLabels : List (List Char) → List Char → Option (List Char)
  | [], _ => none
  | l :: ls, cs =>
    match tryLabel l cs with
    | some g => some g
    | none => tryLabels ls cs

/-- Match of INSTRUCTOR_RE at the current position, returning group 1. -/
def tryInstructorAt (cs : List Char) : Option (List Char) :=
  tryLabels instructorLabels cs

/-- re.search of INSTRUCTOR_RE; returns group 1 (not yet stripped). -/
def instructorSearch (cs : List Char) : Option (List Char) :=
  scanFirst tryInstructorAt cs

/-- Local-part character class [A-Za-z0-9._%+-] of EMAIL_RE. -/
def isLocalChar (c : Char) : Bool :=
  c.isAlphanum || c = '.' || c = '_' || c = '%' || c = '+' || c = '-'

/-- Domain character class [A-Za-z0-9.-] of EMAIL_RE. -/
def isDomainChar (c : Char) : Bool :=
  c.isAlphanum || c = '.' || c = '-'

/-- Does the list start with the literal .edu? -/
def startsDotEdu : List Char → Bool
  | '.' :: 'e' :: 'd' :: 'u' :: _ => true
  | _ => false

/-- Longest prefix P (possibly empty) of the maximal domain-character run such
that .edu follows immediately: the greedy ([A-Za-z0-9.-]+) prefers the
longest split, so recursion into the tail is tried before matching here. -/
def eduSplitAny : List Char → Option (List Char)
  | [] => none
  | c :: cs =>
    match eduSplitAny cs with
    | some p => some (c :: p)
    | none => if startsDotEdu (c :: cs) then some [] else none

/-- Match of EMAIL_RE at the current position, returning group 1 (the domain
including the .edu suffix).  The local part is the maximal run of local
characters (a shorter run cannot be followed by the at-sign, which is not a
local character); the domain group needs at least one character before the
.edu literal. -/
def emailMatchAt (cs : List Char) : Option (List Char) :=
  match cs.takeWhile isLocalChar, cs.dropWhile isLocalChar with
  | _ :: _, '@' :: rest =>
    match rest.takeWhile isDomainChar with
    | c :: run =>
      match eduSplitAny run with
      | some p => some ((c :: p) ++ ['.', 'e', 'd', 'u'])
      | none => none
    | [] => none
  | _, _ => none

/-- re.search of EMAIL_RE; returns group 1. -/
def emailSearch (cs : List Char) : Option (List Char) :=
  scanFirst emailMatchAt cs

/-- Python str.split with a single-character separator (never returns an empty
list; adjacent separators yield empty fields). -/
def splitOnChar (sep : Char) : List Char → List (List Char)
  | [] => [[]]
  | c :: cs =>
    if c = sep then [] :: splitOnChar sep cs
    else
      match splitOnChar sep cs with
      | [] => [[c]]
      | h :: t => (c :: h) :: t

/-- Python str.strip restricted to ASCII whitespace. -/
def pyStrip (l : List Char) : List Char :=
  ((l.dropWhile isPySpace).reverse.dropWhile isPySpace).reverse

/-- Python str.splitlines line-break characters, ASCII range. -/
def isLineBreak (c : Char) : Bool :=
  c = '\n' || c = '\r' || c = '\x0b' || c = '\x0c' ||
  c = '\x1c' || c = '\x1d' || c = '\x1e'

/-- Worker for splitLines: acc is the current line, reversed. -/
def splitLinesGo : List Char → List Char → List (List Char)
  | acc, [] => [acc.reverse]
  | acc, '\r' :: '\n' :: rest =>
    acc.reverse :: (if rest.isEmpty then [] else splitLinesGo [] rest)
  | acc, c :: rest =>
    if isLineBreak c then
      acc.reverse :: (if rest.isEmpty then [] else splitLinesGo [] rest)
    else splitLinesGo (c :: acc) rest

/-- Python str.splitlines: a trailing terminator does not produce a trailing
empty line, and the empty string has no lines. -/
def splitLines : List Char → List (List Char)
  | [] => []
  | c :: cs => splitLinesGo [] (c :: cs)

/-- The class-name scan of heuristic_parse: first line (of the lines given)
whose stripped form has length strictly between 10 and 100 and contains an
uppercase character. -/
def findClassName : List (List Char) → Option (List Char)
  | [] => none
  | l :: ls =>
    if 10 < (pyStrip l).length ∧ (pyStrip l).length < 100 ∧ (pyStrip l).any Char.isUpper then
      some (pyStrip l)
    else findClassName ls

/-- The domain-to-university step of heuristic_parse: split the matched
domain on dots; when at least two fields result, the first field uppercased,
else the Unknown sentinel. -/
def universityOfDomain (d : List Char) : String :=
  match splitOnChar '.' d with
  | p :: _ :: _ => String.mk (p.map Char.toUpper)
  | _ => "Unknown"

/-- University derivation of heuristic_parse: domain of the first EMAIL_RE
match when one exists, else the Unknown sentinel. -/
def universityOf (cs : List Char) : String :=
  match emailSearch cs with
  | none => "Unknown"
  | some d => universityOfDomain d

/-- A reading-material object of the AI extraction schema (title, media_type,
requirement, ISBN, url, journal_names, certainty).  Heuristic extraction only
ever produces the empty list of these. -/
structure ReadingMaterial where
  title : String
  media_type : String
  requirement : String
  isbn : String
  url : String
  journal_names : List String
  certainty : Nat
deriving DecidableEq, Repr

/-- The metadata record produced by extraction (the keys of the dict returned
by heuristic_parse and expected from the LLM). -/
structure SyllabusData where
  year : String
  semester : String
  class_name : String
  class_number : String
  instructor : String
  university : String
  main_topic : String
  reading_materials : List ReadingMaterial
deriving DecidableEq, Repr

/-- The defaulting idiom of heuristic_parse: the matched group when the
search succeeded, else the Unknown sentinel. -/
def optStr : Option (List Char) → String
  | some m => String.mk m
  | none => "Unknown"

/-- heuristic_parse of scripts/syllabus_extractor.py: regex fallback parser.
Each field is the relevant regex search result or the Unknown sentinel (the
instructor group is stripped); main_topic is always Unknown and
reading_materials always empty. -/
def heuristic_parse (t : String) : SyllabusData :=
  let cs := t.toList
  { year := optStr (yearSearch cs)
  , semester := optStr (semesterSearch cs)
  , class_name := optStr (findClassName ((splitLines cs).take 10))
  , class_number := optStr (codeSearch cs)
  , instructor := optStr ((instructorSearch cs).map pyStrip)
  , university := universityOf cs
  , main_topic := "Unknown"
  , reading_materials := [] }

theorem heuristic_parse_year (t : String) :
    (heuristic_parse t).year = optStr (yearSearch t.toList) := rfl

theorem heuristic_parse_semester (t : String) :
    (heuristic_parse t).semester = optStr (semesterSearch t.toList) := rfl

theorem heuristic_parse_class_name (t : String) :
    (heuristic_parse t).class_name =
      optStr (findClassName ((splitLines t.toList).take 10)) := rfl

theorem heuristic_parse_class_number (t : String) :
    (heuristic_parse t).class_number = optStr (codeSearch t.toList) := rfl

theorem heuristic_parse_instructor (t : String) :
    (heuristic_parse t).instructor = optStr ((instructorSearch t.toList).map pyStrip) := rfl

theorem heuristic_parse_university (t : String) :
    (heuristic_parse t).university = universityOf t.toList := rfl

/-! ## Per-document extraction step (process_pdfs_batch, lines 222-241)

The PDF library is external: a document is modeled as its per-page payloads.
Each page yields its raw text (page.get_text) and the outcome of table
extraction on that page: either the markdown renderings of the surviving
tables (find_tables, dropna cleaning and to_markdown belong to the external
PDF/pandas capabilities) or a failure, which extract_tables_from_pdf swallows
for that page.  The LLM call is an oracle from the prompt text to either a
parsed metadata record or an extraction failure message. -/

structure Page where
  text : String
  tables : Except String (List String)

structure PDFDoc where
  filename : String
  pages : List Page

/-- extract_text_from_pdf: page texts joined by newlines. -/
def extract_text_from_pdf (doc : PDFDoc) : String :=
  String.intercalate "\n" (doc.pages.map Page.text)

/-- extract_tables_from_pdf: markdown tables of all pages in order; a failing
page contributes nothing (the except-continue in the page loop). -/
def extract_tables_from_pdf (doc : PDFDoc) : List String :=
  (doc.pages.map (fun p =>
    match p.tables with
    | Except.ok ts => ts
    | Except.error _ => [])).flatten

/-- The combined text built in process_pdfs_batch: body text, and when any
tables were found, the TABLES heading and the tables joined by blank lines. -/
def combined_text (doc : PDFDoc) : String :=
  let text := extract_text_from_pdf doc
  let tms := extract_tables_from_pdf doc
  if tms ≠ [] then
    text ++ "\n\n# TABLES (markdown format)\n" ++ String.intercalate "\n\n" tms
  else text

/-- One row of the batch output: the extracted record plus the filename
provenance attached after extraction (the reading_materials CSV serialization
is output formatting and is not modeled). -/
structure RowData where
  data : SyllabusData
  filename : String
deriving DecidableEq, Repr

/-- The per-document step of process_pdfs_batch: try the LLM on the combined
text; on any extraction failure fall back to heuristic_parse applied to the
body text variable (not the combined text); attach the filename. -/
def processOne (ai : String → Except String SyllabusData) (doc : PDFDoc) : RowData :=
  let text := extract_text_from_pdf doc
  match ai (combined_text doc) with
  | Except.ok d => { data := d, filename := doc.filename }
  | Except.error _ => { data := heuristic_parse text, filename := doc.filename }

/-! ## Primo integration (backend/primo_integration.py)

The HTTP transport is an oracle: search_single_item derives the request
deterministically from the title and author (clean_search_term sanitization
and URL encoding produce the query string), so the network outcome is modeled
as a function of the pair.  A JSON value that the code inspects with
isinstance checks is modeled by PyVal; dict fields the code reads with get
are Option-valued. -/

/-- A JSON-ish value as the result-parsing code discriminates it: a string, a
list, or anything else (null and other shapes behave alike everywhere they
are used). -/
inductive PyVal
  | str (s : String)
  | list (xs : List PyVal)
  | null
deriving Repr

/-- Python truthiness for the modeled values. -/
def PyVal.truthy : PyVal → Bool
  | PyVal.str s => s != ""
  | PyVal.list xs => !xs.isEmpty
  | PyVal.null => false

/-- An element of the delivery link array: a dict with the optional keys
linkURL, displayLabel, linkType, or a non-dict element (skipped). -/
inductive LinkEntry
  | obj (linkURL : Option String) (displayLabel : Option String) (linkType : Option String)
  | other
deriving Repr

/-- An item record inside a holding (only its availability key is read). -/
structure ItemRec where
  availability : Option String
deriving Repr

/-- A truthy (non-empty) location dict of a holding; an absent or empty
location dict is modeled by Option.none at the holding. -/
structure LocationInfo where
  mainLocation : Option String
deriving Repr

/-- A holding record: location dict (when truthy) and items list. -/
structure Holding where
  location : Option LocationInfo
  items : List ItemRec
deriving Repr

/-- A result document of the bibliographic response: the pnx.display and
pnx.addata fields the parser reads (absent keys are none), plus delivery and
holdings (absent delivery.link, delivery.delcategory or holdings lists behave
like empty lists wherever they are read, so they are modeled as lists). -/
structure Doc where
  display_title : Option PyVal
  display_creator : Option PyVal
  display_type : Option PyVal
  addata_date : Option PyVal
  addata_isbn : Option PyVal
  addata_issn : Option PyVal
  addata_pub : Option PyVal
  delivery_delcategory : List String
  delivery_link : List LinkEntry
  holdings : List Holding
deriving Repr

/-- The JSON body of a 200 response: the docs array and the optional
info.total count. -/
structure SearchData where
  docs : List Doc
  total : Option Nat
deriving Repr

/-- Outcome of the HTTP request of search_single_item: a 200 response with a
parsed JSON body, a non-200 status with its error text, or a raised
exception. -/
inductive NetResult
  | ok (data : SearchData)
  | httpError (status : Nat) (body : String)
  | exn (msg : String)
deriving Repr

/-- The availability dict built by check_availability. -/
structure Availability where
  available : Bool
  locations : List String
  online_access : Bool
  physical_copies : Nat
  delivery_category : List String
deriving Repr

/-- A link_info dict built by extract_links. -/
structure LinkInfo where
  url : String
  display_label : String
  link_type : String
deriving Repr

/-- extract_links: keep the dict-shaped entries whose linkURL value is a
non-empty string, with the defaulted labels. -/
def extract_links (linkData : List LinkEntry) : List LinkInfo :=
  linkData.foldl (fun acc l =>
    match l with
    | LinkEntry.obj lurl dlabel ltype =>
      let info : LinkInfo :=
        { url := lurl.getD ""
        , display_label := dlabel.getD "Access Resource"
        , link_type := ltype.getD "unknown" }
      if info.url ≠ "" then acc ++ [info] else acc
    | LinkEntry.other => acc) []

/-- Item step of the holdings loop of check_availability. -/
def holdingItemsStep (a : Availability) (i : ItemRec) : Availability :=
  if i.availability = some "available" then
    { a with physical_copies := a.physical_copies + 1, available := true }
  else a

/-- Holding step of check_availability: record the main location name of a
truthy location dict when not already present, then scan the items. -/
def holdingStep (a : Availability) (h : Holding) : Availability :=
  let a1 :=
    match h.location with
    | some loc =>
      let name := loc.mainLocation.getD "Unknown"
      if name ∈ a.locations then a else { a with locations := a.locations ++ [name] }
    | none => a
  h.items.foldl holdingItemsStep a1

/-- check_availability of primo_integration.py (the exception handler of the
source is unreachable over these typed inputs). -/
def check_availability (doc : Doc) : Availability :=
  let a0 : Availability :=
    { available := false, locations := [], online_access := false
    , physical_copies := 0, delivery_category := [] }
  let a1 :=
    if !doc.delivery_delcategory.isEmpty then
      { a0 with delivery_category := doc.delivery_delcategory, available := true }
    else a0
  let a2 :=
    if !doc.delivery_link.isEmpty then
      { a1 with online_access := true, available := true }
    else a1
  doc.holdings.foldl holdingStep a2

/-- The extraction pattern for title and creator: first element of a
non-empty list, a string as itself, anything else Unknown. -/
def strOrFirst : PyVal → PyVal
  | PyVal.list (x :: _) => x
  | PyVal.str s => PyVal.str s
  | _ => PyVal.str "Unknown"

/-- The extraction pattern for the resource type: first element of a
non-empty list, any other value unchanged. -/
def typeExtract : PyVal → PyVal
  | PyVal.list (x :: _) => x
  | v => v

/-- The extraction pattern for the date: first element of a non-empty list,
anything else Unknown. -/
def dateExtract : PyVal → PyVal
  | PyVal.list (x :: _) => x
  | _ => PyVal.str "Unknown"

/-- One parsed result document (the per-doc dict built by
parse_search_results). -/
structure ParsedDoc where
  title : PyVal
  creator : PyVal
  rtype : PyVal
  date : PyVal
  isbn : PyVal
  issn : PyVal
  publisher : PyVal
  availability : Availability
  links : List LinkInfo
deriving Repr

/-- Per-document parsing of parse_search_results, with the source's get
defaults. -/
def parse_doc (doc : Doc) : ParsedDoc :=
  { title := strOrFirst (doc.display_title.getD (PyVal.list []))
  , creator := strOrFirst (doc.display_creator.getD (PyVal.list []))
  , rtype := typeExtract (doc.display_type.getD (PyVal.list [PyVal.str "Unknown"]))
  , date := dateExtract (doc.addata_date.getD (PyVal.list []))
  , isbn := doc.addata_isbn.getD (PyVal.list [])
  , issn := doc.addata_issn.getD (PyVal.list [])
  , publisher := doc.addata_pub.getD (PyVal.list [])
  , availability := check_availability doc
  , links := extract_links doc.delivery_link }

/-- The dict returned by search_single_item, at the granularity its caller
reads it: the found flag, the results list (empty when the key is absent),
the error message when present, and the total count on success (the title
and author echo fields are not read downstream and are omitted). -/
structure SingleResult where
  found : Bool
  results : List ParsedDoc
  errorMsg : Option String
  totalResults : Option Nat
deriving Repr

/-- parse_search_results: an empty docs array is the not-found signal; else
parse the top three documents (its exception handler is unreachable over
these typed inputs). -/
def parse_search_results (data : SearchData) : SingleResult :=
  if data.docs.isEmpty then
    { found := false, results := [], errorMsg := none, totalResults := none }
  else
    { found := true
    , results := (data.docs.take 3).map parse_doc
    , errorMsg := none
    , totalResults := some (data.total.getD data.docs.length) }

/-- search_single_item (the source's underscore-prefixed helper): no search
terms is an error; otherwise the network outcome for the sanitized query
built from title and author decides the result. -/
def search_single_item (net : String → String → NetResult) (title author : String) : SingleResult :=
  if title = "" ∧ author = "" then
    { found := false, results := [], errorMsg := some "No search terms provided", totalResults := none }
  else
    match net title author with
    | NetResult.ok data => parse_search_results data
    | NetResult.httpError status body =>
      { found := false, results := []
      , errorMsg := some ("API request failed with status " ++ toString status ++ ": " ++ body)
      , totalResults := none }
    | NetResult.exn msg =>
      { found := false, results := [], errorMsg := some msg, totalResults := none }

/-- determine_availability_status (underscore-prefixed in the source). -/
def determine_availability_status (pr : ParsedDoc) : String :=
  if pr.availability.available = true then "available"
  else if pr.availability.online_access = true then "available"
  else "unavailable"

/-- extract_location_info (underscore-prefixed in the source). -/
def extract_location_info (pr : ParsedDoc) : String :=
  match pr.availability.locations with
  | l :: _ => l
  | [] => if pr.availability.online_access = true then "Online" else "Unknown"

/-- extract_access_link (underscore-prefixed in the source). -/
def extract_access_link (pr : ParsedDoc) : String :=
  match pr.links with
  | l :: _ => l.url
  | [] => "#"

/-- A library match dict of the response shape (title and format carry the
raw extracted values, which the source leaves dynamically typed). -/
structure LibraryMatch where
  title : PyVal
  authors : List PyVal
  availability : String
  format : PyVal
  location : String
  link : String
  callNumber : Option String
  dueDate : Option String
  coverImage : Option String
deriving Repr

/-- One library_matches entry: originalQuery, matchScore, and the match list
(the source's key named for the list of matches is a reserved word here, so
the field is called matchList). -/
structure MatchEntry where
  originalQuery : String
  matchScore : ℚ
  matchList : List LibraryMatch
deriving Repr

/-- The transformation of one parsed result document into a match dict. -/
def to_library_match (pr : ParsedDoc) : LibraryMatch :=
  { title := pr.title
  , authors := if pr.creator.truthy then [pr.creator] else []
  , availability := determine_availability_status pr
  , format := pr.rtype
  , location := extract_location_info pr
  , link := extract_access_link pr
  , callNumber := none
  , dueDate := none
  , coverImage := none }

/-- A reading material as search_by_metadata discriminates it: a dict, a
string, or anything else (skipped). -/
structure MaterialDict where
  title : Option String
  creator : Option String
  type : Option String
  media_type : Option String
  requirement : Option String
  url : Option String
deriving Repr

inductive Material
  | dict (d : MaterialDict)
  | str (s : String)
  | other
deriving Repr

/-- The title variable of the loop body. -/
def titleOf : Material → String
  | Material.dict d => d.title.getD ""
  | Material.str s => s
  | Material.other => ""

/-- The author variable of the loop body. -/
def authorOf : Material → String
  | Material.dict d => d.creator.getD ""
  | _ => ""

/-- Python str.lower restricted to ASCII (the character-wise map, which the
embedding uses so that concrete reports evaluate by reduction). -/
def pyLower (s : String) : String :=
  String.mk (s.toList.map Char.toLower)

/-- material.get with the type key preferred over media_type, lowercased. -/
def materialType (d : MaterialDict) : String :=
  pyLower (d.type.getD (d.media_type.getD ""))

/-- material.get of requirement, lowercased. -/
def requirementOf (d : MaterialDict) : String :=
  pyLower (d.requirement.getD "")

/-- material.get of url. -/
def urlOf (d : MaterialDict) : String :=
  d.url.getD ""

/-- The library_matches entry synthesized for a material that already carries
a usable url (Filter 2 of the loop). -/
def urlEntry (d : MaterialDict) : MatchEntry :=
  { originalQuery := d.title.getD ""
  , matchScore := 1
  , matchList :=
      [{ title := PyVal.str (d.title.getD "")
       , authors := if d.creator.getD "" ≠ "" then [PyVal.str (d.creator.getD "")] else []
       , availability := "available"
       , format := PyVal.str "Online Resource"
       , location := "Online"
       , link := urlOf d
       , callNumber := none
       , dueDate := none
       , coverImage := none }] }

/-- A results entry: the single-item search outcome with the original
material attached. -/
structure TaggedResult where
  res : SingleResult
  original : Material
deriving Repr

/-- The metadata dict passed to search_by_metadata, at the granularity the
function reads it: the reading_materials key when present; the record itself
is echoed back in reports. -/
structure PrimoMetadata where
  reading_materials : Option (List Material)
deriving Repr

/-- The two report shapes search_by_metadata returns: the error shape
(found, error, metadata, library_matches) and the success shape
(found, results, metadata, total_materials, found_materials,
library_matches).  The error shape has no total_materials or
found_materials keys. -/
inductive Report
  | err (found : Bool) (error : String) (metadata : PrimoMetadata)
        (library_matches : List MatchEntry)
  | ok (found : Bool) (results : List TaggedResult) (metadata : PrimoMetadata)
       (total_materials : Nat) (found_materials : Nat)
       (library_matches : List MatchEntry)
deriving Repr

def Report.foundFlag : Report → Bool
  | Report.err f _ _ _ => f
  | Report.ok f _ _ _ _ _ => f

def Report.errorMsg? : Report → Option String
  | Report.err _ e _ _ => some e
  | Report.ok _ _ _ _ _ _ => none

def Report.metadataEcho : Report → PrimoMetadata
  | Report.err _ _ md _ => md
  | Report.ok _ _ md _ _ _ => md

def Report.totalMaterials? : Report → Option Nat
  | Report.err _ _ _ _ => none
  | Report.ok _ _ _ t _ _ => some t

def Report.foundMaterials? : Report → Option Nat
  | Report.err _ _ _ _ => none
  | Report.ok _ _ _ _ c _ => some c

def Report.libraryMatches : Report → List MatchEntry
  | Report.err _ _ _ lm => lm
  | Report.ok _ _ _ _ _ lm => lm

def Report.resultsList : Report → List TaggedResult
  | Report.err _ _ _ _ => []
  | Report.ok _ r _ _ _ _ => r

/-- The search part of the loop body (Filters 3 and 4): query when a title is
present and a credential is configured; a successful non-empty response
yields a 0.8-score entry with the transformed matches, anything else a
0.0-score entry with no matches; without a credential only the 0.0-score
entry is recorded (no results entry). -/
def searchStep (k : Bool) (net : String → String → NetResult)
    (acc : List TaggedResult × List MatchEntry) (m : Material)
    (title author : String) : List TaggedResult × List MatchEntry :=
  if title ≠ "" then
    if k then
      let r := search_single_item net title author
      let withRes := acc.1 ++ [{ res := r, original := m }]
      if r.found && !r.results.isEmpty then
        (withRes, acc.2 ++
          [{ originalQuery := title, matchScore := 0.8
           , matchList := r.results.map to_library_match }])
      else
        (withRes, acc.2 ++ [{ originalQuery := title, matchScore := 0, matchList := [] }])
    else
      (acc.1, acc.2 ++ [{ originalQuery := title, matchScore := 0, matchList := [] }])
  else acc

/-- The loop body of search_by_metadata over one reading material. -/
def step (k : Bool) (net : String → String → NetResult)
    (acc : List TaggedResult × List MatchEntry) (m : Material) :
    List TaggedResult × List MatchEntry :=
  match m with
  | Material.dict d =>
    if requirementOf d = "equipment" ∨ materialType d = "equipment" then acc
    else if urlOf d ≠ "" ∧ pyLower (urlOf d) ∉ (["unknown", "", "none"] : List String) then
      (acc.1, acc.2 ++ [urlEntry d])
    else
      searchStep k net acc (Material.dict d) (d.title.getD "") (d.creator.getD "")
  | Material.str s => searchStep k net acc (Material.str s) s ""
  | Material.other => acc

/-- search_by_metadata of primo_integration.py.  The hasSession flag models
whether the client was entered as an async context manager: without it the
function raises (Except.error) before its try block.  Inside the try block
the function is total over these typed inputs, so the except handler
contributes no further report shape. -/
def search_by_metadata (hasSession : Bool) (k : Bool)
    (net : String → String → NetResult) (metadata : PrimoMetadata) :
    Except String Report :=
  if hasSession = false then
    Except.error "PrimoAPIClient must be used as async context manager"
  else
    let rm := metadata.reading_materials.getD []
    if rm.isEmpty then
      Except.ok (Report.err false "No reading materials found in metadata" metadata [])
    else
      let acc := rm.foldl (step k net) ([], [])
      let cnt := (acc.1.filter (fun r => r.res.found)).length
      Except.ok (Report.ok (decide (0 < cnt)) acc.1 metadata rm.length cnt acc.2)

/-! ## Lemmas about the heuristic scanners -/

theorem mk_toList (l : List Char) : (String.mk l).toList = l := rfl

theorem scanFirst_some {f : List Char → Option (List Char)} :
    ∀ {cs m : List Char}, scanFirst f cs = some m → ∃ n, f (cs.drop n) = some m := by
  intro cs
  induction cs with
  | nil => intro m h; simp [scanFirst] at h
  | cons c cs ih =>
    intro m h
    unfold scanFirst at h
    split at h
    · rename_i heq
      cases h
      exact ⟨0, heq⟩
    · obtain ⟨n, hn⟩ := ih h
      exact ⟨n + 1, hn⟩

theorem matchCI_sound :
    ∀ (p cs m r : List Char), matchCI p cs = some (m, r) →
      m.map Char.toLower = p ∧ cs = m ++ r := by
  intro p
  induction p with
  | nil =>
    intro cs m r h
    simp [matchCI] at h
    obtain ⟨h1, h2⟩ := h
    subst h1; subst h2; simp
  | cons p ps ih =>
    intro cs m r h
    cases cs with
    | nil => simp [matchCI] at h
    | cons c cs =>
      unfold matchCI at h
      by_cases hlow : c.toLower = p
      · rw [if_pos hlow] at h
        cases heq : matchCI ps cs with
        | none => rw [heq] at h; simp at h
        | some pr =>
          obtain ⟨m0, r0⟩ := pr
          rw [heq] at h
          simp at h
          obtain ⟨h1, h2⟩ := h
          obtain ⟨hm, hr⟩ := ih cs m0 r0 heq
          subst h2
          refine ⟨?_, ?_⟩
          · rw [← h1]; simp [hm, hlow]
          · rw [← h1]; simp [hr]
      · rw [if_neg hlow] at h
        simp at h

theorem tryWord_sound {w cs m : List Char} (h : tryWord w cs = some m) :
    m.map Char.toLower = w := by
  unfold tryWord at h
  cases heq : matchCI w cs with
  | none => rw [heq] at h; simp at h
  | some pr =>
    obtain ⟨m0, r0⟩ := pr
    rw [heq] at h
    by_cases hb : boundaryAfter r0 = true
    · simp only [hb, if_true] at h
      cases h
      exact (matchCI_sound w cs _ _ heq).1
    · simp only [Bool.not_eq_true] at hb
      simp [hb] at h

theorem tryWords_sound :
    ∀ (ws : List (List Char)) (cs m : List Char),
      tryWords ws cs = some m → ∃ w ∈ ws, m.map Char.toLower = w := by
  intro ws
  induction ws with
  | nil => intro cs m h; simp [tryWords] at h
  | cons w ws ih =>
    intro cs m h
    unfold tryWords at h
    split at h
    · rename_i heq
      cases h
      exact ⟨w, by simp, tryWord_sound heq⟩
    · obtain ⟨w', hw', hmap⟩ := ih cs m h
      exact ⟨w', by simp [hw'], hmap⟩

theorem semesterSearchAux_sound :
    ∀ (cs : List Char) (prev : Bool) (m : List Char),
      semesterSearchAux prev cs = some m →
      ∃ w ∈ semesterWords, m.map Char.toLower = w := by
  intro cs
  induction cs with
  | nil => intro prev m h; simp [semesterSearchAux] at h
  | cons c cs ih =>
    intro prev m h
    unfold semesterSearchAux at h
    split at h
    · rename_i heq
      cases h
      cases prev with
      | true => simp at heq
      | false =>
        simp at heq
        exact tryWords_sound _ _ _ heq
    · exact ih _ _ h

theorem yearAt_sound {cs m : List Char} (h : yearAt cs = some m) :
    ∃ d1 d2, m = ['2', '0', d1, d2] ∧ d1.isDigit = true ∧ d2.isDigit = true := by
  unfold yearAt at h
  split at h
  · rename_i d1 d2 rest
    split at h
    · rename_i hd
      cases h
      simp only [Bool.and_eq_true] at hd
      exact ⟨d1, d2, rfl, hd.1, hd.2⟩
    · simp at h
  · simp at h

theorem tryDigits_sound {cs ds : List Char} (h : tryDigits cs = some ds) :
    (ds.length = 3 ∨ ds.length = 4) ∧ ds.all Char.isDigit = true := by
  unfold tryDigits at h
  split at h
  · rename_i d1 d2 d3 rest
    split at h
    · rename_i hd
      simp only [Bool.and_eq_true] at hd
      obtain ⟨⟨h1, h2⟩, h3⟩ := hd
      split at h
      · rename_i d4 rest'
        split at h
        · rename_i h4
          cases h
          exact ⟨Or.inr rfl, by simp [List.all, h1, h2, h3, h4]⟩
        · cases h
          exact ⟨Or.inl rfl, by simp [List.all, h1, h2, h3]⟩
      · cases h
        exact ⟨Or.inl rfl, by simp [List.all, h1, h2, h3]⟩
    · simp at h
  · simp at h

theorem tryCodeTail_sound {cs tl : List Char} (h : tryCodeTail cs = some tl) :
    ∃ sep ds, tl = sep ++ ds ∧
      (sep = [] ∨ ∃ c, sep = [c] ∧ (isPySpace c = true ∨ c = '-')) ∧
      (ds.length = 3 ∨ ds.length = 4) ∧ ds.all Char.isDigit = true := by
  unfold tryCodeTail at h
  split at h
  · simp at h
  · rename_i c cs'
    split at h
    · rename_i hsep
      split at h
      · rename_i ds' heq
        cases h
        obtain ⟨hlen, hall⟩ := tryDigits_sound heq
        refine ⟨[c], ds', rfl, Or.inr ⟨c, rfl, ?_⟩, hlen, hall⟩
        rcases Bool.or_eq_true _ _ |>.mp hsep with h' | h'
        · exact Or.inl h'
        · exact Or.inr (by simpa using h')
      · simp at h
    · obtain ⟨hlen, hall⟩ := tryDigits_sound h
      exact ⟨[], tl, by simp, Or.inl rfl, hlen, hall⟩

theorem tryCodeLens_sound (cs : List Char) :
    ∀ (L : Nat) (m : List Char), tryCodeLens cs L = some m →
      ∃ lnum, 2 ≤ lnum ∧ lnum ≤ L ∧
        ∃ tl, tryCodeTail (cs.drop lnum) = some tl ∧ m = cs.take lnum ++ tl := by
  intro L
  induction L with
  | zero => intro m h; simp [tryCodeLens] at h
  | succ n ih =>
    intro m h
    cases n with
    | zero => simp [tryCodeLens] at h
    | succ k =>
      unfold tryCodeLens at h
      split at h
      · rename_i tl heq
        cases h
        exact ⟨k + 2, by omega, by omega, tl, heq, rfl⟩
      · obtain ⟨lnum, h2, hle, tl, heq, hm⟩ := ih m h
        exact ⟨lnum, h2, by omega, tl, heq, hm⟩

theorem take_takeWhile_eq {α : Type} (p : α → Bool) :
    ∀ (l : List α) (n : Nat), n ≤ (l.takeWhile p).length →
      l.take n = (l.takeWhile p).take n := by
  intro l
  induction l with
  | nil => intro n h; simp [List.takeWhile] at h; simp [h]
  | cons c cs ih =>
    intro n h
    cases hp : p c with
    | true =>
      simp only [List.takeWhile_cons, hp, if_true] at h ⊢
      cases n with
      | zero => simp
      | succ n =>
        simp only [List.take_succ_cons, List.length_cons] at h ⊢
        rw [ih n (by omega)]
    | false =>
      simp only [List.takeWhile_cons, hp, if_false] at h
      simp at h
      simp [h]

theorem tryCodeAt_sound {cs m : List Char} (h : tryCodeAt cs = some m) :
    ∃ ls sep ds, m = ls ++ sep ++ ds ∧
      2 ≤ ls.length ∧ ls.length ≤ 4 ∧ ls.all Char.isUpper = true ∧
      (sep = [] ∨ ∃ c, sep = [c] ∧ (isPySpace c = true ∨ c = '-')) ∧
      (ds.length = 3 ∨ ds.length = 4) ∧ ds.all Char.isDigit = true := by
  unfold tryCodeAt at h
  obtain ⟨lnum, h2, hle, tl, heq, hm⟩ := tryCodeLens_sound cs _ m h
  obtain ⟨sep, ds, htl, hsep, hds⟩ := tryCodeTail_sound heq
  have hrun : lnum ≤ (cs.takeWhile Char.isUpper).length := le_trans hle (min_le_left _ _)
  have htake : cs.take lnum = (cs.takeWhile Char.isUpper).take lnum :=
    take_takeWhile_eq Char.isUpper cs lnum hrun
  refine ⟨cs.take lnum, sep, ds, by simp [hm, htl], ?_, ?_, ?_, hsep, hds⟩
  · have hlen : (cs.take lnum).length = lnum := by
      have : lnum ≤ cs.length :=
        le_trans hrun (List.takeWhile_prefix _).length_le
      simp [List.length_take]; omega
    omega
  · have hlen : (cs.take lnum).length = lnum := by
      have : lnum ≤ cs.length :=
        le_trans hrun (List.takeWhile_prefix _).length_le
      simp [List.length_take]; omega
    have h4 : lnum ≤ 4 := le_trans hle (min_le_right _ _)
    omega
  · rw [htake]
    rw [List.all_eq_true]
    intro x hx
    have hx' : x ∈ cs.takeWhile Char.isUpper := List.take_subset _ _ hx
    exact List.mem_takeWhile_imp hx'

theorem findClassName_sound :
    ∀ (ls : List (List Char)) (s : List Char), findClassName ls = some s →
      10 < s.length ∧ s.length < 100 ∧ s.any Char.isUpper = true := by
  intro ls
  induction ls with
  | nil => intro s h; simp [findClassName] at h
  | cons l ls ih =>
    intro s h
    unfold findClassName at h
    split at h
    · rename_i hcond
      cases h
      exact hcond
    · exact ih s h

theorem afterColonGroup_no_newline {r g : List Char}
    (h : afterColonGroup r = some g) : '\n' ∉ g := by
  unfold afterColonGroup at h
  split at h
  · split at h
    · rename_i c hc
      cases h
      have hmem := List.mem_of_getLast?_eq_some hc
      have hne := List.of_mem_filter hmem
      simp only [bne_iff_ne, ne_eq] at hne
      simp only [List.mem_singleton]
      intro hEq
      exact hne hEq.symm
    · simp at h
  · cases h
    intro hmem
    have := List.mem_takeWhile_imp hmem
    simp at this

theorem tryLabel_no_newline {lbl cs g : List Char}
    (h : tryLabel lbl cs = some g) : '\n' ∉ g := by
  unfold tryLabel at h
  split at h
  · exact afterColonGroup_no_newline h
  · simp at h

theorem tryLabels_no_newline :
    ∀ (ls : List (List Char)) (cs g : List Char),
      tryLabels ls cs = some g → '\n' ∉ g := by
  intro ls
  induction ls with
  | nil => intro cs g h; simp [tryLabels] at h
  | cons l ls ih =>
    intro cs g h
    unfold tryLabels at h
    split at h
    · rename_i heq
      cases h
      exact tryLabel_no_newline heq
    · exact ih cs g h

theorem pyStrip_subset (l : List Char) : pyStrip l ⊆ l := by
  unfold pyStrip
  intro x hx
  rw [List.mem_reverse] at hx
  have hx2 := List.dropWhile_sublist (l := (l.dropWhile isPySpace).reverse) (p := isPySpace) |>.mem hx
  rw [List.mem_reverse] at hx2
  exact List.dropWhile_sublist (p := isPySpace) |>.mem hx2

theorem instructorSearch_no_newline {cs g : List Char}
    (h : instructorSearch cs = some g) : '\n' ∉ g := by
  obtain ⟨n, hn⟩ := scanFirst_some h
  exact tryLabels_no_newline _ _ _ hn

theorem emailMatchAt_shape {cs d : List Char} (h : emailMatchAt cs = some d) :
    ∃ pre, pre ≠ [] ∧ d = pre ++ ['.', 'e', 'd', 'u'] := by
  unfold emailMatchAt at h
  split at h
  · rename_i rest heq1 heq2
    split at h
    · rename_i c run heq3
      split at h
      · rename_i p heq4
        cases h
        exact ⟨c :: p, by simp, rfl⟩
      · simp at h
    · simp at h
  · simp at h

theorem emailSearch_dot {cs d : List Char} (h : emailSearch cs = some d) :
    '.' ∈ d := by
  obtain ⟨n, hn⟩ := scanFirst_some h
  obtain ⟨pre, hne, hd⟩ := emailMatchAt_shape hn
  simp [hd]

theorem splitOnChar_ne_nil (sep : Char) :
    ∀ (l : List Char), splitOnChar sep l ≠ [] := by
  intro l
  induction l with
  | nil => simp [splitOnChar]
  | cons c cs ih =>
    unfold splitOnChar
    split
    · simp
    · split
      · simp
      · simp

theorem splitOnChar_head (sep : Char) :
    ∀ (l : List Char),
      (splitOnChar sep l).head? = some (l.takeWhile (fun c => c != sep)) := by
  intro l
  induction l with
  | nil => simp [splitOnChar]
  | cons c cs ih =>
    unfold splitOnChar
    split
    · rename_i hc
      subst hc
      simp [List.takeWhile_cons]
    · rename_i hc
      split
      · rename_i heq
        exact absurd heq (splitOnChar_ne_nil sep cs)
      · rename_i h t heq
        rw [heq] at ih
        simp at ih
        simp [List.takeWhile_cons, hc, ih]

theorem splitOnChar_length2 (sep : Char) :
    ∀ (l : List Char), sep ∈ l → 2 ≤ (splitOnChar sep l).length := by
  intro l
  induction l with
  | nil => intro h; simp at h
  | cons c cs ih =>
    intro hmem
    unfold splitOnChar
    split
    · have := splitOnChar_ne_nil sep cs
      have : 1 ≤ (splitOnChar sep cs).length := by
        cases h' : splitOnChar sep cs with
        | nil => exact absurd h' this
        | cons a b => simp
      simp
      omega
    · rename_i hc
      have hmem' : sep ∈ cs := by
        rcases List.mem_cons.mp hmem with h' | h'
        · exact absurd h'.symm hc
        · exact h'
      have h2 := ih hmem'
      split
      · rename_i heq
        exact absurd heq (splitOnChar_ne_nil sep cs)
      · rename_i h t heq
        rw [heq] at h2
        simpa using h2

theorem universityOf_none {cs : List Char} (h : emailSearch cs = none) :
    universityOf cs = "Unknown" := by
  unfold universityOf
  split
  · rfl
  · rename_i d heq
    rw [h] at heq
    cases heq

theorem universityOfDomain_spec {d : List Char} (hdot : '.' ∈ d) :
    universityOfDomain d = String.mk ((d.takeWhile (fun c => c != '.')).map Char.toUpper) := by
  have hlen := splitOnChar_length2 '.' d hdot
  have hhead := splitOnChar_head '.' d
  unfold universityOfDomain
  split
  · rename_i p q t heq
    rw [heq] at hhead
    simp at hhead
    simp [hhead]
  · rename_i hno
    cases hsplit : splitOnChar '.' d with
    | nil => exact absurd hsplit (splitOnChar_ne_nil '.' d)
    | cons p rest =>
      cases rest with
      | nil => rw [hsplit] at hlen; simp at hlen
      | cons q t => exact absurd hsplit (hno p q t)

theorem universityOf_some {cs d : List Char} (h : emailSearch cs = some d) :
    universityOf cs = String.mk ((d.takeWhile (fun c => c != '.')).map Char.toUpper) := by
  unfold universityOf
  split
  · rename_i heq
    rw [h] at heq
    cases heq
  · rename_i d' heq
    rw [h] at heq
    cases heq
    exact universityOfDomain_spec (emailSearch_dot h)

/-! ## Claims about the extractor -/

/-- Modelled from the spec text of claim C8 (the only place it is needed):
the subdomain label immediately before the top-level domain, uppercased. -/
def labelBeforeTLD (d : List Char) : String :=
  match (splitOnChar '.' d).reverse with
  | _ :: lbl :: _ => String.mk (lbl.map Char.toUpper)
  | _ => "Unknown"

/-- Claim C7: heuristic_parse is a total, deterministic, side-effect-free
function (it is a pure Lean function by construction): for every input text
all eight fields are present, main_topic is always the Unknown sentinel and
reading_materials always the empty list, and every other field is either the
Unknown sentinel or a value of the shape its regex extracts (a 20xx year; a
semester word up to case; a course code of two to four uppercase letters, an
optional space or hyphen, and three or four digits; a stripped line of length
strictly between 10 and 100 containing an uppercase letter; a single-line
instructor; a university derived from the first .edu email domain). -/
theorem C7_heuristic_parse_total (t : String) :
    (heuristic_parse t).main_topic = "Unknown" ∧
    (heuristic_parse t).reading_materials = [] ∧
    ((heuristic_parse t).year = "Unknown" ∨
      ∃ d1 d2, (heuristic_parse t).year.toList = ['2', '0', d1, d2] ∧
        d1.isDigit = true ∧ d2.isDigit = true) ∧
    ((heuristic_parse t).semester = "Unknown" ∨
      ∃ w ∈ semesterWords, (heuristic_parse t).semester.toList.map Char.toLower = w) ∧
    ((heuristic_parse t).class_number = "Unknown" ∨
      ∃ ls sep ds, (heuristic_parse t).class_number.toList = ls ++ sep ++ ds ∧
        2 ≤ ls.length ∧ ls.length ≤ 4 ∧ ls.all Char.isUpper = true ∧
        (sep = [] ∨ ∃ c, sep = [c] ∧ (isPySpace c = true ∨ c = '-')) ∧
        (ds.length = 3 ∨ ds.length = 4) ∧ ds.all Char.isDigit = true) ∧
    ((heuristic_parse t).class_name = "Unknown" ∨
      (10 < (heuristic_parse t).class_name.toList.length ∧
       (heuristic_parse t).class_name.toList.length < 100 ∧
       (heuristic_parse t).class_name.toList.any Char.isUpper = true)) ∧
    ((heuristic_parse t).instructor = "Unknown" ∨
      '\n' ∉ (heuristic_parse t).instructor.toList) ∧
    ((heuristic_parse t).university = "Unknown" ∨
      ∃ d, emailSearch t.toList = some d ∧
        (heuristic_parse t).university.toList =
          (d.takeWhile (fun c => c != '.')).map Char.toUpper) := by
  refine ⟨rfl, rfl, ?_, ?_, ?_, ?_, ?_, ?_⟩
  · rw [heuristic_parse_year t]
    cases h : yearSearch t.toList with
    | none => left; rfl
    | some m =>
      right
      obtain ⟨n, hn⟩ := scanFirst_some h
      obtain ⟨d1, d2, hm, h1, h2⟩ := yearAt_sound hn
      exact ⟨d1, d2, by rw [show optStr (some m) = String.mk m from rfl, mk_toList, hm], h1, h2⟩
  · rw [heuristic_parse_semester t]
    cases h : semesterSearch t.toList with
    | none => left; rfl
    | some m =>
      right
      obtain ⟨w, hw, hmap⟩ := semesterSearchAux_sound t.toList false m h
      exact ⟨w, hw, by rw [show optStr (some m) = String.mk m from rfl, mk_toList]; exact hmap⟩
  · rw [heuristic_parse_class_number t]
    cases h : codeSearch t.toList with
    | none => left; rfl
    | some m =>
      right
      obtain ⟨n, hn⟩ := scanFirst_some h
      obtain ⟨ls, sep, ds, hm, hprops⟩ := tryCodeAt_sound hn
      exact ⟨ls, sep, ds, by rw [show optStr (some m) = String.mk m from rfl, mk_toList, hm], hprops⟩
  · rw [heuristic_parse_class_name t]
    cases h : findClassName ((splitLines t.toList).take 10) with
    | none => left; rfl
    | some cn =>
      right
      have hc := findClassName_sound _ cn h
      rw [show optStr (some cn) = String.mk cn from rfl, mk_toList]
      exact hc
  · rw [heuristic_parse_instructor t]
    cases h : instructorSearch t.toList with
    | none => left; rfl
    | some g =>
      right
      have hnl := instructorSearch_no_newline h
      rw [show ((some g).map pyStrip) = some (pyStrip g) from rfl,
          show optStr (some (pyStrip g)) = String.mk (pyStrip g) from rfl, mk_toList]
      intro hmem
      exact hnl (pyStrip_subset g hmem)
  · rw [heuristic_parse_university t]
    cases h : emailSearch t.toList with
    | none => left; exact universityOf_none h
    | some d =>
      right
      refine ⟨d, rfl, ?_⟩
      rw [universityOf_some h, mk_toList]

/-- Claim C7 witness: the theorem evaluated at a concrete text. -/
theorem C7_witness :
    (heuristic_parse "BIO 101 Fall 2023").main_topic = "Unknown" ∧
    (heuristic_parse "BIO 101 Fall 2023").reading_materials = [] :=
  ⟨(C7_heuristic_parse_total "BIO 101 Fall 2023").1,
   (C7_heuristic_parse_total "BIO 101 Fall 2023").2.1⟩

/-- Claim C8 counterexample: on the text Contact: jdoe@cs.miami.edu the code
derives the university from the first label of the matched domain (CS), while
the claim prescribes the subdomain label immediately before the top-level
domain (MIAMI). -/
theorem C8_counterexample :
    emailSearch "Contact: jdoe@cs.miami.edu".toList = some "cs.miami.edu".toList ∧
    (heuristic_parse "Contact: jdoe@cs.miami.edu").university = "CS" ∧
    labelBeforeTLD "cs.miami.edu".toList = "MIAMI" ∧
    (heuristic_parse "Contact: jdoe@cs.miami.edu").university ≠
      labelBeforeTLD "cs.miami.edu".toList := by
  refine ⟨by decide, by decide, by decide, by decide⟩

/-- Claim C8 (amended): the heuristic university field is derived from the
domain group of the first .edu email match by taking the first label of that
domain (the label immediately after the at-sign), uppercased; when no such
email occurs it is the Unknown sentinel. -/
theorem C8_university_first_label (t : String) :
    (emailSearch t.toList = none → (heuristic_parse t).university = "Unknown") ∧
    (∀ d, emailSearch t.toList = some d →
      (heuristic_parse t).university.toList =
        (d.takeWhile (fun c => c != '.')).map Char.toUpper) := by
  constructor
  · intro h
    rw [heuristic_parse_university t]
    exact universityOf_none h
  · intro d h
    rw [heuristic_parse_university t, universityOf_some h, mk_toList]

/-- Claim C8 witness: the amended theorem applied at a concrete text whose
first .edu email is a@mail.miami.edu, giving university MAIL. -/
theorem C8_witness :
    (heuristic_parse "write to a@mail.miami.edu today").university.toList =
      ("mail.miami.edu".toList.takeWhile (fun c => c != '.')).map Char.toUpper :=
  (C8_university_first_label "write to a@mail.miami.edu today").2
    "mail.miami.edu".toList (by decide)

/-! ## Claims about the per-document extraction step -/

/-- The concrete document of the C1 counterexample: its only semester token
sits inside the table markdown, so it is visible to the combined text but not
to the body text. -/
def docC1 : PDFDoc :=
  { filename := "syllabus.pdf"
  , pages := [{ text := "Course notes", tables := Except.ok ["| Fall 2023 |"] }] }

/-- Claim C1 counterexample: with a failing AI oracle, the code's fallback
record carries semester Unknown, while heuristic_parse applied to the
combined normalized text (the claim's stated fallback input) extracts Fall;
so the fallback is not applied to the combined text. -/
theorem C1_counterexample :
    (processOne (fun _ => Except.error "extraction failed") docC1).data.semester = "Unknown" ∧
    (heuristic_parse (combined_text docC1)).semester = "Fall" ∧
    ("Unknown" : String) ≠ "Fall" := by
  refine ⟨by decide, by decide, by decide⟩

/-- Claim C1 (amended): the per-document step first attempts AI extraction on
the combined normalized text (body text plus table markdown) and, on any
extraction failure, falls back to heuristic_parse applied to the body text
alone (without the table markdown); the step is a total function (it never
raises), worst case returning the heuristic record - whose reading_materials
list is empty and main_topic Unknown - with the filename attached. -/
theorem C1_fallback_body_text (ai : String → Except String SyllabusData) (doc : PDFDoc) :
    (processOne ai doc).filename = doc.filename ∧
    (∀ d, ai (combined_text doc) = Except.ok d → (processOne ai doc).data = d) ∧
    (∀ e, ai (combined_text doc) = Except.error e →
      (processOne ai doc).data = heuristic_parse (extract_text_from_pdf doc) ∧
      (processOne ai doc).data.reading_materials = [] ∧
      (processOne ai doc).data.main_topic = "Unknown") := by
  refine ⟨?_, ?_, ?_⟩
  · unfold processOne
    cases h : ai (combined_text doc) <;> simp
  · intro d h
    unfold processOne
    rw [h]
  · intro e h
    unfold processOne
    rw [h]
    exact ⟨rfl, rfl, rfl⟩

/-- Claim C1 witness: the amended theorem applied to the concrete document
and a failing oracle. -/
theorem C1_witness :
    (processOne (fun _ => Except.error "no api key") docC1).data =
      heuristic_parse (extract_text_from_pdf docC1) :=
  ((C1_fallback_body_text (fun _ => Except.error "no api key") docC1).2.2
    "no api key" rfl).1

/-! ## Per-item characterization of the search_by_metadata loop -/

/-- Does the loop issue a Primo query for this material and record a results
entry?  True exactly when the material reaches Filter 3 with a non-empty
title and a credential is configured. -/
def itemQueried (k : Bool) : Material → Bool
  | Material.dict d =>
    if requirementOf d = "equipment" ∨ materialType d = "equipment" then false
    else if urlOf d ≠ "" ∧ pyLower (urlOf d) ∉ (["unknown", "", "none"] : List String) then false
    else if d.title.getD "" ≠ "" ∧ k = true then true else false
  | Material.str s => if s ≠ "" ∧ k = true then true else false
  | Material.other => false

/-- The not-found entry (score zero, no matches). -/
def zeroEntry (title : String) : MatchEntry :=
  { originalQuery := title, matchScore := 0, matchList := [] }

/-- The library_matches contribution of the search part of the loop body. -/
def entriesFor (k : Bool) (net : String → String → NetResult)
    (title author : String) : List MatchEntry :=
  if title ≠ "" then
    if k then
      if (search_single_item net title author).found &&
         !(search_single_item net title author).results.isEmpty then
        [{ originalQuery := title, matchScore := 0.8
         , matchList := (search_single_item net title author).results.map to_library_match }]
      else [zeroEntry title]
    else [zeroEntry title]
  else []

/-- The library_matches contribution of one material. -/
def itemEntries (k : Bool) (net : String → String → NetResult) : Material → List MatchEntry
  | Material.dict d =>
    if requirementOf d = "equipment" ∨ materialType d = "equipment" then []
    else if urlOf d ≠ "" ∧ pyLower (urlOf d) ∉ (["unknown", "", "none"] : List String) then
      [urlEntry d]
    else entriesFor k net (d.title.getD "") (d.creator.getD "")
  | Material.str s => entriesFor k net s ""
  | Material.other => []

/-- The results contribution of one material. -/
def itemResults (k : Bool) (net : String → String → NetResult) (m : Material) :
    List TaggedResult :=
  if itemQueried k m then
    [{ res := search_single_item net (titleOf m) (authorOf m), original := m }]
  else []

theorem searchStep_spec (k : Bool) (net : String → String → NetResult)
    (acc : List TaggedResult × List MatchEntry) (m : Material) (title author : String) :
    searchStep k net acc m title author =
      (acc.1 ++ (if title ≠ "" ∧ k = true then
          [{ res := search_single_item net title author, original := m }] else []),
       acc.2 ++ entriesFor k net title author) := by
  unfold searchStep entriesFor
  by_cases ht : title ≠ ""
  · cases k with
    | false => simp [ht, zeroEntry]
    | true =>
      simp only [ht, if_true, and_true, ne_eq, not_false_iff]
      by_cases hb : ((search_single_item net title author).found &&
          !(search_single_item net title author).results.isEmpty) = true
      · simp [ht, hb, zeroEntry]
      · simp only [Bool.not_eq_true] at hb
        simp [ht, hb, zeroEntry]
  · simp only [ne_eq, Decidable.not_not] at ht
    simp [ht]

theorem step_spec (k : Bool) (net : String → String → NetResult)
    (acc : List TaggedResult × List MatchEntry) (m : Material) :
    step k net acc m = (acc.1 ++ itemResults k net m, acc.2 ++ itemEntries k net m) := by
  cases m with
  | other => simp [step, itemResults, itemQueried, itemEntries]
  | str s =>
    by_cases h3 : s ≠ "" ∧ k = true
    · simp [step, searchStep_spec, itemResults, itemQueried, itemEntries, titleOf, authorOf, h3]
    · simp [step, searchStep_spec, itemResults, itemQueried, itemEntries, titleOf, authorOf, h3]
  | dict d =>
    by_cases h1 : requirementOf d = "equipment" ∨ materialType d = "equipment"
    · unfold step itemEntries
      dsimp only
      rw [if_pos h1, if_pos h1]
      unfold itemResults itemQueried
      dsimp only
      rw [if_pos h1]
      simp
    · by_cases h2 : urlOf d ≠ "" ∧ pyLower (urlOf d) ∉ (["unknown", "", "none"] : List String)
      · unfold step itemEntries
        dsimp only
        rw [if_neg h1, if_pos h2, if_neg h1, if_pos h2]
        unfold itemResults itemQueried
        dsimp only
        rw [if_neg h1, if_pos h2]
        simp
      · unfold step itemEntries
        dsimp only
        rw [if_neg h1, if_neg h2, if_neg h1, if_neg h2, searchStep_spec]
        unfold itemResults itemQueried
        dsimp only
        rw [if_neg h1, if_neg h2]
        by_cases h3 : d.title.getD "" ≠ "" ∧ k = true
        · simp [h3, titleOf, authorOf]
        · simp [h3, titleOf, authorOf]

/-- The loop of search_by_metadata accumulates exactly the per-item
contributions, in material order: each item contributes independently of its
siblings. -/
theorem loop_spec (k : Bool) (net : String → String → NetResult) :
    ∀ (ms : List Material) (acc : List TaggedResult × List MatchEntry),
      ms.foldl (step k net) acc =
        (acc.1 ++ ms.flatMap (itemResults k net), acc.2 ++ ms.flatMap (itemEntries k net)) := by
  intro ms
  induction ms with
  | nil => intro acc; simp
  | cons m ms ih =>
    intro acc
    rw [List.foldl_cons, step_spec, ih]
    simp

/-- The found flag of a single-item search with a non-empty title is set
exactly when the network returned a 200 response whose docs array is
non-empty. -/
theorem search_found_iff (net : String → String → NetResult) (title author : String)
    (ht : title ≠ "") :
    (search_single_item net title author).found = true ↔
      ∃ data, net title author = NetResult.ok data ∧ data.docs ≠ [] := by
  unfold search_single_item
  rw [if_neg (by simp [ht])]
  cases hn : net title author with
  | ok data =>
    unfold parse_search_results
    by_cases hd : data.docs.isEmpty
    · simp only [hd, if_true]
      constructor
      · intro h; simp at h
      · rintro ⟨data', hd', hne⟩
        cases hd'
        exact absurd (List.isEmpty_iff.mp hd) hne
    · simp only [hd, if_false]
      constructor
      · intro _
        exact ⟨data, rfl, fun hnil => by simp [hnil] at hd⟩
      · intro _; rfl
  | httpError st body =>
    simp
  | exn msg =>
    simp

/-- The search outcome is not found when the request raised, the status was
not 200, or the docs array was empty. -/
theorem search_found_false (net : String → String → NetResult) (title author : String)
    (h : (∃ msg, net title author = NetResult.exn msg) ∨
         (∃ st body, net title author = NetResult.httpError st body) ∨
         (∃ data, net title author = NetResult.ok data ∧ data.docs = [])) :
    (search_single_item net title author).found = false := by
  unfold search_single_item
  by_cases ht : title = "" ∧ author = ""
  · rw [if_pos ht]
  · rw [if_neg ht]
    rcases h with ⟨msg, hm⟩ | ⟨st, body, hm⟩ | ⟨data, hm, hd⟩ <;> rw [hm]
    show (parse_search_results data).found = false
    unfold parse_search_results
    rw [if_pos (by simp [hd])]

/-- The per-item found-count of the loop is the count of materials that were
queried and whose search succeeded. -/
theorem count_found_spec (k : Bool) (net : String → String → NetResult) :
    ∀ (ms : List Material),
      ((ms.flatMap (itemResults k net)).filter (fun r => r.res.found)).length =
        ms.countP (fun m => itemQueried k m &&
          (search_single_item net (titleOf m) (authorOf m)).found) := by
  intro ms
  induction ms with
  | nil => simp
  | cons m ms ih =>
    rw [List.flatMap_cons, List.filter_append, List.length_append, ih, List.countP_cons]
    unfold itemResults
    by_cases hq : itemQueried k m = true
    · simp only [hq, if_true, Bool.true_and]
      by_cases hf : (search_single_item net (titleOf m) (authorOf m)).found = true
      · simp [hf]
        omega
      · simp only [Bool.not_eq_true] at hf
        simp [hf]
    · simp only [Bool.not_eq_true] at hq
      simp [hq]

/-! ## Availability judgment lemmas -/

/-- The item-availability test of check_availability as a Boolean predicate. -/
def availPred (i : ItemRec) : Bool :=
  decide (i.availability = some "available")

/-- The main-location name a holding contributes, when its location dict is
truthy. -/
def locNameOf (h : Holding) : Option String :=
  h.location.map (fun l => l.mainLocation.getD "Unknown")

theorem itemsFold_spec (items : List ItemRec) :
    ∀ (a : Availability),
      (items.foldl holdingItemsStep a).locations = a.locations ∧
      (items.foldl holdingItemsStep a).online_access = a.online_access ∧
      (items.foldl holdingItemsStep a).delivery_category = a.delivery_category ∧
      (items.foldl holdingItemsStep a).physical_copies =
        a.physical_copies + items.countP availPred ∧
      (items.foldl holdingItemsStep a).available = (a.available || items.any availPred) := by
  induction items with
  | nil => intro a; simp
  | cons i items ih =>
    intro a
    rw [List.foldl_cons]
    obtain ⟨l, o, d, p, av⟩ := ih (holdingItemsStep a i)
    by_cases hi : i.availability = some "available"
    · have hstep : holdingItemsStep a i =
          { a with physical_copies := a.physical_copies + 1, available := true } := by
        unfold holdingItemsStep; rw [if_pos hi]
      rw [hstep] at l o d p av ⊢
      refine ⟨l, o, d, ?_, ?_⟩
      · rw [p]
        simp [List.countP_cons, availPred, hi]
        omega
      · rw [av]
        simp [availPred, hi]
    · have hstep : holdingItemsStep a i = a := by
        unfold holdingItemsStep; rw [if_neg hi]
      rw [hstep] at l o d p av ⊢
      refine ⟨l, o, d, ?_, ?_⟩
      · rw [p]
        simp [List.countP_cons, availPred, hi]
      · rw [av]
        simp [availPred, hi]

theorem holdingStep_fields (a : Availability) (h : Holding) :
    (holdingStep a h).online_access = a.online_access ∧
    (holdingStep a h).delivery_category = a.delivery_category ∧
    (holdingStep a h).physical_copies = a.physical_copies + h.items.countP availPred ∧
    (holdingStep a h).available = (a.available || h.items.any availPred) ∧
    (∀ x, x ∈ (holdingStep a h).locations ↔ x ∈ a.locations ∨ locNameOf h = some x) ∧
    (a.locations.Nodup → (holdingStep a h).locations.Nodup) := by
  unfold holdingStep
  cases hl : h.location with
  | none =>
    dsimp only
    obtain ⟨l, o, d, p, av⟩ := itemsFold_spec h.items a
    refine ⟨o, d, p, av, fun x => ?_, fun hn => by rw [l]; exact hn⟩
    rw [l]
    simp [locNameOf, hl]
  | some loc =>
    dsimp only
    have hname : locNameOf h = some (loc.mainLocation.getD "Unknown") := by
      simp [locNameOf, hl]
    by_cases hm : loc.mainLocation.getD "Unknown" ∈ a.locations
    · rw [if_pos hm]
      obtain ⟨l, o, d, p, av⟩ := itemsFold_spec h.items a
      refine ⟨o, d, p, av, fun x => ?_, fun hn => by rw [l]; exact hn⟩
      rw [l, hname]
      constructor
      · intro hx; exact Or.inl hx
      · rintro (hx | hx)
        · exact hx
        · injection hx with hx'
          rw [← hx']
          exact hm
    · rw [if_neg hm]
      obtain ⟨l, o, d, p, av⟩ :=
        itemsFold_spec h.items { a with locations := a.locations ++ [loc.mainLocation.getD "Unknown"] }
      refine ⟨o, d, p, av, fun x => ?_, fun hn => ?_⟩
      · rw [l, hname]
        simp only [List.mem_append, List.mem_singleton]
        constructor
        · rintro (hx | hx)
          · exact Or.inl hx
          · exact Or.inr (by rw [hx])
        · rintro (hx | hx)
          · exact Or.inl hx
          · injection hx with hx'
            exact Or.inr hx'.symm
      · rw [l]
        simp [List.nodup_append, hn, hm]

theorem holdingsFold_spec (hs : List Holding) :
    ∀ (a : Availability),
      (hs.foldl holdingStep a).online_access = a.online_access ∧
      (hs.foldl holdingStep a).delivery_category = a.delivery_category ∧
      (hs.foldl holdingStep a).physical_copies =
        a.physical_copies + (hs.flatMap Holding.items).countP availPred ∧
      (hs.foldl holdingStep a).available =
        (a.available || (hs.flatMap Holding.items).any availPred) ∧
      (∀ x, x ∈ (hs.foldl holdingStep a).locations ↔
        x ∈ a.locations ∨ ∃ h ∈ hs, locNameOf h = some x) ∧
      (a.locations.Nodup → (hs.foldl holdingStep a).locations.Nodup) := by
  induction hs with
  | nil => intro a; simp
  | cons h hs ih =>
    intro a
    rw [List.foldl_cons]
    obtain ⟨o, d, p, av, lmem, lnd⟩ := ih (holdingStep a h)
    obtain ⟨o1, d1, p1, av1, lmem1, lnd1⟩ := holdingStep_fields a h
    refine ⟨by rw [o, o1], by rw [d, d1], ?_, ?_, ?_, fun hn => lnd (lnd1 hn)⟩
    · rw [p, p1]
      simp [List.countP_append]
      omega
    · rw [av, av1]
      simp [Bool.or_assoc]
    · intro x
      rw [lmem x]
      constructor
      · rintro (hx | hx)
        · rcases (lmem1 x).mp hx with hx' | hx'
          · exact Or.inl hx'
          · exact Or.inr ⟨h, List.mem_cons_self h hs, hx'⟩
        · obtain ⟨b, hb, hbx⟩ := hx
          exact Or.inr ⟨b, List.mem_cons_of_mem h hb, hbx⟩
      · rintro (hx | ⟨b, hb, hbx⟩)
        · exact Or.inl ((lmem1 x).mpr (Or.inl hx))
        · rcases List.mem_cons.mp hb with hb' | hb'
          · subst hb'
            exact Or.inl ((lmem1 x).mpr (Or.inr hbx))
          · exact Or.inr ⟨b, hb', hbx⟩
/-- The record state of check_availability entering the holdings loop. -/
theorem check_availability_unfold (doc : Doc) :
    check_availability doc =
      doc.holdings.foldl holdingStep
        { available := !doc.delivery_delcategory.isEmpty || !doc.delivery_link.isEmpty
        , locations := []
        , online_access := !doc.delivery_link.isEmpty
        , physical_copies := 0
        , delivery_category :=
            if doc.delivery_delcategory.isEmpty then [] else doc.delivery_delcategory } := by
  unfold check_availability
  by_cases hc : doc.delivery_delcategory.isEmpty <;>
    by_cases hl : doc.delivery_link.isEmpty <;>
    simp [hc, hl]

/-! ## Claims about the availability judgment -/

/-- Claim C6: per result document, available is true exactly when the
document exposes a non-empty delivery category list, or any delivery link,
or some holding item whose availability status equals available;
online_access is true exactly when a delivery link exists; physical_copies
counts holding items with status available; locations is the de-duplicated
list of the main-location names of the holdings (no duplicates, and a name
is present exactly when some holding contributes it); the document is
reported available to the caller exactly when available or online_access
holds; and in particular a document with a non-empty delivery link list and
no holdings is judged available, online, with zero physical copies. -/
theorem C6_availability_judgment (doc : Doc) :
    ((check_availability doc).available = true ↔
      (doc.delivery_delcategory ≠ [] ∨ doc.delivery_link ≠ [] ∨
       ∃ i ∈ doc.holdings.flatMap Holding.items, i.availability = some "available")) ∧
    ((check_availability doc).online_access = true ↔ doc.delivery_link ≠ []) ∧
    ((check_availability doc).physical_copies =
      (doc.holdings.flatMap Holding.items).countP availPred) ∧
    (check_availability doc).locations.Nodup ∧
    (∀ x, x ∈ (check_availability doc).locations ↔
      ∃ h ∈ doc.holdings, locNameOf h = some x) ∧
    (determine_availability_status (parse_doc doc) = "available" ↔
      ((check_availability doc).available = true ∨
       (check_availability doc).online_access = true)) ∧
    (doc.delivery_link ≠ [] → doc.holdings = [] →
      ((check_availability doc).available = true ∧
       (check_availability doc).online_access = true ∧
       (check_availability doc).physical_copies = 0)) := by
  obtain ⟨o, d, p, av, lmem, lnd⟩ :=
    holdingsFold_spec doc.holdings
      { available := !doc.delivery_delcategory.isEmpty || !doc.delivery_link.isEmpty
      , locations := []
      , online_access := !doc.delivery_link.isEmpty
      , physical_copies := 0
      , delivery_category :=
          if doc.delivery_delcategory.isEmpty then [] else doc.delivery_delcategory }
  have hca := check_availability_unfold doc
  have hav : (check_availability doc).available = true ↔
      (doc.delivery_delcategory ≠ [] ∨ doc.delivery_link ≠ [] ∨
       ∃ i ∈ doc.holdings.flatMap Holding.items, i.availability = some "available") := by
    rw [hca, av]
    simp [availPred, List.isEmpty_iff, or_assoc]
    tauto
  have hon : (check_availability doc).online_access = true ↔ doc.delivery_link ≠ [] := by
    rw [hca, o]
    simp [List.isEmpty_iff]
  have hph : (check_availability doc).physical_copies =
      (doc.holdings.flatMap Holding.items).countP availPred := by
    rw [hca, p]
    simp
  have hnd : (check_availability doc).locations.Nodup := by
    rw [hca]
    exact lnd List.nodup_nil
  have hlm : ∀ x, x ∈ (check_availability doc).locations ↔
      ∃ h ∈ doc.holdings, locNameOf h = some x := by
    intro x
    rw [hca, lmem x]
    simp
  refine ⟨hav, hon, hph, hnd, hlm, ?_, ?_⟩
  · unfold determine_availability_status
    have hpd : (parse_doc doc).availability = check_availability doc := rfl
    rw [hpd]
    by_cases ha : (check_availability doc).available = true
    · simp [ha]
    · simp only [Bool.not_eq_true] at ha
      by_cases ho2 : (check_availability doc).online_access = true
      · simp [ha, ho2]
      · simp only [Bool.not_eq_true] at ho2
        simp [ha, ho2]
  · intro hlink hhold
    refine ⟨hav.mpr (Or.inr (Or.inl hlink)), hon.mpr hlink, ?_⟩
    rw [hph, hhold]
    rfl

/-- Claim C6 witness: a concrete document with one delivery link and no
holdings, evaluated through the theorem. -/
theorem C6_witness :
    (check_availability
        { display_title := none, display_creator := none, display_type := none
        , addata_date := none, addata_isbn := none, addata_issn := none
        , addata_pub := none, delivery_delcategory := []
        , delivery_link := [LinkEntry.obj (some "https://ebook.example.edu") none none]
        , holdings := [] }).available = true ∧
    (check_availability
        { display_title := none, display_creator := none, display_type := none
        , addata_date := none, addata_isbn := none, addata_issn := none
        , addata_pub := none, delivery_delcategory := []
        , delivery_link := [LinkEntry.obj (some "https://ebook.example.edu") none none]
        , holdings := [] }).online_access = true ∧
    (check_availability
        { display_title := none, display_creator := none, display_type := none
        , addata_date := none, addata_isbn := none, addata_issn := none
        , addata_pub := none, delivery_delcategory := []
        , delivery_link := [LinkEntry.obj (some "https://ebook.example.edu") none none]
        , holdings := [] }).physical_copies = 0 :=
  (C6_availability_judgment _).2.2.2.2.2.2 (by simp) rfl

/-! ## Claims about search_by_metadata -/

/-- A network oracle that always raises; the claims below that use it never
reach the network. -/
def netNone : String → String → NetResult := fun _ _ => NetResult.exn "no network"

theorem itemQueried_title {k : Bool} {m : Material} (hq : itemQueried k m = true) :
    titleOf m ≠ "" := by
  cases m with
  | other => simp [itemQueried] at hq
  | str s =>
    unfold itemQueried at hq
    dsimp only at hq
    split_ifs at hq with h
    simpa [titleOf] using h.1
  | dict d =>
    unfold itemQueried at hq
    dsimp only at hq
    split_ifs at hq with h1 h2 h3
    simpa [titleOf] using h3.1

/-- The normal-path report of search_by_metadata, characterized per item. -/
theorem search_by_metadata_ok (k : Bool) (net : String → String → NetResult)
    (md : PrimoMetadata) (ms : List Material)
    (h : md.reading_materials = some ms) (hne : ms ≠ []) :
    search_by_metadata true k net md =
      Except.ok (Report.ok
        (decide (0 < ms.countP (fun m => itemQueried k m &&
          (search_single_item net (titleOf m) (authorOf m)).found)))
        (ms.flatMap (itemResults k net)) md ms.length
        (ms.countP (fun m => itemQueried k m &&
          (search_single_item net (titleOf m) (authorOf m)).found))
        (ms.flatMap (itemEntries k net))) := by
  unfold search_by_metadata
  rw [if_neg (by simp), h]
  simp only [Option.getD_some]
  rw [if_neg (by simp [List.isEmpty_iff, hne])]
  have hacc := loop_spec k net ms ([], [])
  have hcnt := count_found_spec k net ms
  simp only [hacc, List.nil_append, hcnt]

/-- Claim C2 counterexample: with no session (the client not entered as an
async context manager), search_by_metadata raises rather than returning a
report, for an ordinary metadata input. -/
theorem C2_counterexample :
    search_by_metadata false true netNone
        { reading_materials := some [Material.str "Calculus"] } =
      Except.error "PrimoAPIClient must be used as async context manager" := rfl

/-- Claim C2 (amended): provided the client has an active session,
search_by_metadata never raises - it always returns a report value; without a
session it raises the context-manager RuntimeError before reaching its
exception handler. -/
theorem C2_no_raise_with_session (k : Bool) (net : String → String → NetResult)
    (md : PrimoMetadata) :
    (∃ r, search_by_metadata true k net md = Except.ok r) ∧
    search_by_metadata false k net md =
      Except.error "PrimoAPIClient must be used as async context manager" := by
  constructor
  · unfold search_by_metadata
    rw [if_neg (by simp)]
    by_cases hrm : (md.reading_materials.getD []).isEmpty
    · rw [if_pos hrm]
      exact ⟨_, rfl⟩
    · rw [if_neg hrm]
      exact ⟨_, rfl⟩
  · unfold search_by_metadata
    rw [if_pos rfl]

/-- Claim C10: with missing or empty reading_materials the result is the
error-shaped report - found false, the fixed error string, the metadata
echoed, empty library_matches - which carries no total_materials or
found_materials fields (its accessors are none). -/
theorem C10_empty_materials_report (k : Bool) (net : String → String → NetResult)
    (md : PrimoMetadata)
    (h : md.reading_materials = none ∨ md.reading_materials = some []) :
    search_by_metadata true k net md =
      Except.ok (Report.err false "No reading materials found in metadata" md []) ∧
    (Report.err false "No reading materials found in metadata" md []).totalMaterials? = none ∧
    (Report.err false "No reading materials found in metadata" md []).foundMaterials? = none := by
  refine ⟨?_, rfl, rfl⟩
  unfold search_by_metadata
  rw [if_neg (by simp)]
  have hrm : (md.reading_materials.getD []).isEmpty = true := by
    rcases h with h | h <;> rw [h] <;> rfl
  rw [if_pos hrm]

/-- Claim C10 witness: the theorem at a concrete metadata record with no
reading_materials key. -/
theorem C10_witness :
    search_by_metadata true false netNone { reading_materials := none } =
      Except.ok (Report.err false "No reading materials found in metadata"
        { reading_materials := none } []) :=
  (C10_empty_materials_report false netNone { reading_materials := none } (Or.inl rfl)).1

/-- The equipment material of the C3 counterexample: its type key holds
books, its media_type key equipment. -/
def mdC3 : PrimoMetadata :=
  { reading_materials := some [Material.dict
      { title := some "Lab Kit", creator := none, type := some "books"
      , media_type := some "Equipment", requirement := some "required", url := none }] }

/-- Claim C3 counterexample: a reading material whose media_type equals
equipment (case-insensitively) but whose type key holds books is not
dropped - the type key shadows media_type in the skip rule - so it appears
in library_matches (as a not-found entry here, with no credential
configured), where the claim says it must appear nowhere. -/
theorem C3_counterexample :
    (search_by_metadata true false netNone mdC3).map
        (fun r => (r.libraryMatches.length, r.resultsList.length, r.totalMaterials?)) =
      Except.ok (1, 0, some 1) := rfl

/-- Claim C3 (amended): for every reading material whose requirement equals
equipment case-insensitively, or whose effective type - the type key when
present, otherwise media_type - equals equipment case-insensitively, the
matcher drops the item entirely: it contributes nothing to library_matches
or to the per-item results, while total_materials in the returned report
still equals the length of the full original reading_materials list. -/
theorem C3_equipment_dropped (k : Bool) (net : String → String → NetResult)
    (md : PrimoMetadata) (ms : List Material) (d : MaterialDict)
    (h : md.reading_materials = some ms) (hm : Material.dict d ∈ ms)
    (heq : requirementOf d = "equipment" ∨ materialType d = "equipment") :
    itemEntries k net (Material.dict d) = [] ∧
    itemResults k net (Material.dict d) = [] ∧
    ∃ r, search_by_metadata true k net md = Except.ok r ∧
      r.totalMaterials? = some ms.length ∧
      r.libraryMatches = ms.flatMap (itemEntries k net) ∧
      r.resultsList = ms.flatMap (itemResults k net) := by
  have hqf : itemQueried k (Material.dict d) = false := by
    unfold itemQueried
    dsimp only
    rw [if_pos heq]
  refine ⟨?_, ?_, ?_⟩
  · unfold itemEntries
    dsimp only
    rw [if_pos heq]
  · simp [itemResults, hqf]
  · exact ⟨_, search_by_metadata_ok k net md ms h (List.ne_nil_of_mem hm), rfl, rfl, rfl⟩

/-- The equipment material of the C3 witness (no type key). -/
def eqDict : MaterialDict :=
  { title := some "Lab Kit", creator := none, type := none
  , media_type := some "equipment", requirement := none, url := none }

/-- Claim C3 witness: the amended theorem at a concrete equipment item. -/
theorem C3_witness :
    itemEntries false netNone (Material.dict eqDict) = [] ∧
    itemResults false netNone (Material.dict eqDict) = [] :=
  ⟨(C3_equipment_dropped false netNone
      { reading_materials := some [Material.dict eqDict] }
      [Material.dict eqDict] eqDict rfl (by simp) (Or.inr (by decide))).1,
   (C3_equipment_dropped false netNone
      { reading_materials := some [Material.dict eqDict] }
      [Material.dict eqDict] eqDict rfl (by simp) (Or.inr (by decide))).2.1⟩

/-- The equipment-with-url material of the C4 counterexample. -/
def mdC4 : PrimoMetadata :=
  { reading_materials := some [Material.dict
      { title := some "VR Headset", creator := none, type := none
      , media_type := some "equipment", requirement := none
      , url := some "https://example.com/book" }] }

/-- Claim C4 counterexample: a structured material carrying the valid url
https://example.com/book but whose media_type is equipment is dropped by the
skip rule before the pre-resolved rule fires, so no MatchResult at all is
synthesized, where the claim demands exactly one with score one. -/
theorem C4_counterexample :
    (search_by_metadata true true netNone mdC4).map Report.libraryMatches =
      Except.ok [] := rfl

/-- Claim C4 (amended): for every structured reading material that is not
dropped by the equipment rule and already carries a non-empty url whose
lower-cased value is not unknown, none or the empty string, the matcher
synthesizes exactly one MatchResult with match_score one, containing a
single LibraryMatch marked available with format Online Resource, location
Online and link equal to that url; it records no per-item search result and
consults the network oracle for nothing (the contribution is identical
under any two oracles). -/
theorem C4_url_preresolved (k : Bool) (net net2 : String → String → NetResult)
    (md : PrimoMetadata) (ms : List Material) (d : MaterialDict)
    (h : md.reading_materials = some ms) (hm : Material.dict d ∈ ms)
    (hneq : ¬(requirementOf d = "equipment" ∨ materialType d = "equipment"))
    (hurl : urlOf d ≠ "" ∧ pyLower (urlOf d) ∉ (["unknown", "", "none"] : List String)) :
    itemEntries k net (Material.dict d) = [urlEntry d] ∧
    (urlEntry d).matchScore = 1 ∧
    (urlEntry d).matchList.map LibraryMatch.availability = ["available"] ∧
    (urlEntry d).matchList.map LibraryMatch.format = [PyVal.str "Online Resource"] ∧
    (urlEntry d).matchList.map LibraryMatch.location = ["Online"] ∧
    (urlEntry d).matchList.map LibraryMatch.link = [urlOf d] ∧
    itemResults k net (Material.dict d) = [] ∧
    itemEntries k net (Material.dict d) = itemEntries k net2 (Material.dict d) ∧
    ∃ r, search_by_metadata true k net md = Except.ok r ∧
      r.libraryMatches = ms.flatMap (itemEntries k net) := by
  have he : ∀ (n : String → String → NetResult),
      itemEntries k n (Material.dict d) = [urlEntry d] := by
    intro n
    unfold itemEntries
    dsimp only
    rw [if_neg hneq, if_pos hurl]
  have hqf : itemQueried k (Material.dict d) = false := by
    unfold itemQueried
    dsimp only
    rw [if_neg hneq, if_pos hurl]
  refine ⟨he net, rfl, rfl, rfl, rfl, rfl, ?_, ?_, ?_⟩
  · simp [itemResults, hqf]
  · rw [he net, he net2]
  · exact ⟨_, search_by_metadata_ok k net md ms h (List.ne_nil_of_mem hm), rfl⟩

/-- The pre-resolved material of the C4 witness. -/
def urlDict : MaterialDict :=
  { title := some "Open Textbook", creator := some "Doe"
  , type := none, media_type := some "websites", requirement := some "required"
  , url := some "https://example.com/book" }

/-- Claim C4 witness: the amended theorem at a concrete pre-resolved item. -/
theorem C4_witness :
    itemEntries true netNone (Material.dict urlDict) = [urlEntry urlDict] :=
  (C4_url_preresolved true netNone netNone
    { reading_materials := some [Material.dict urlDict] }
    [Material.dict urlDict] urlDict rfl (by simp) (by decide) ⟨by decide, by decide⟩).1

/-- The single pre-resolved material of the C5 counterexample. -/
def mdC5 : PrimoMetadata :=
  { reading_materials := some [Material.dict
      { title := some "Course Reader", creator := none, type := none
      , media_type := none, requirement := none
      , url := some "https://example.com/reader" }] }

/-- Claim C5 counterexample: a metadata record whose single reading material
is pre-resolved by url yields a report with one library_matches entry
carrying one match, yet found_materials is zero and found is false - the
aggregate counts only queried items, not items with matches, contradicting
the claim that a pre-resolved item is counted. -/
theorem C5_counterexample :
    (search_by_metadata true true netNone mdC5).map
        (fun r => (r.foundMaterials?, r.foundFlag,
          r.libraryMatches.map (fun e => e.matchList.length))) =
      Except.ok (some 0, false, [1]) := rfl

/-- Claim C5 (amended): in every report produced without systemic failure,
found is true exactly when at least one queried item yielded a non-empty
result set, and found_materials equals the number of queried items whose
search succeeded; items pre-resolved by url carry a match in library_matches
but are not queried and are not counted in found_materials. -/
theorem C5_found_counts (k : Bool) (net : String → String → NetResult)
    (md : PrimoMetadata) (ms : List Material)
    (h : md.reading_materials = some ms) (hne : ms ≠ []) :
    ∃ r, search_by_metadata true k net md = Except.ok r ∧
      r.foundMaterials? = some (ms.countP (fun m => itemQueried k m &&
        (search_single_item net (titleOf m) (authorOf m)).found)) ∧
      r.foundFlag = decide (0 < ms.countP (fun m => itemQueried k m &&
        (search_single_item net (titleOf m) (authorOf m)).found)) ∧
      (∀ m ∈ ms, (itemQueried k m &&
          (search_single_item net (titleOf m) (authorOf m)).found) = true ↔
        (itemQueried k m = true ∧
          ∃ data, net (titleOf m) (authorOf m) = NetResult.ok data ∧ data.docs ≠ [])) := by
  refine ⟨_, search_by_metadata_ok k net md ms h hne, rfl, rfl, ?_⟩
  intro m hmem
  rw [Bool.and_eq_true]
  constructor
  · rintro ⟨hq, hf⟩
    exact ⟨hq, (search_found_iff net _ _ (itemQueried_title hq)).mp hf⟩
  · rintro ⟨hq, hex⟩
    exact ⟨hq, (search_found_iff net _ _ (itemQueried_title hq)).mpr hex⟩

/-- Claim C5 witness: the amended theorem at a concrete metadata record. -/
theorem C5_witness :
    ∃ r, search_by_metadata true false netNone
        { reading_materials := some [Material.str "Calculus"] } = Except.ok r ∧
      r.foundMaterials? = some 0 := by
  obtain ⟨r, h1, h2, _⟩ := C5_found_counts false netNone
    { reading_materials := some [Material.str "Calculus"] }
    [Material.str "Calculus"] rfl (by simp)
  exact ⟨r, h1, by rw [h2]; rfl⟩

/-- Claim C9: for a queried reading item (a title is present and the item is
neither skipped as equipment nor pre-resolved by url), a zero-document
response, a request error, or an absent API credential each produce exactly
the explicit not-found entry (score zero, empty match list) for that item;
and the report still assembles every sibling item's contribution
independently, in order. -/
theorem C9_not_found_isolated (k : Bool) (net : String → String → NetResult)
    (md : PrimoMetadata) (ms : List Material) (m : Material)
    (h : md.reading_materials = some ms) (hm : m ∈ ms)
    (hq : itemQueried true m = true)
    (hfail : k = false ∨
      (∃ msg, net (titleOf m) (authorOf m) = NetResult.exn msg) ∨
      (∃ st body, net (titleOf m) (authorOf m) = NetResult.httpError st body) ∨
      (∃ data, net (titleOf m) (authorOf m) = NetResult.ok data ∧ data.docs = [])) :
    itemEntries k net m = [zeroEntry (titleOf m)] ∧
    ∃ r, search_by_metadata true k net md = Except.ok r ∧
      r.libraryMatches = ms.flatMap (itemEntries k net) ∧
      r.resultsList = ms.flatMap (itemResults k net) := by
  have hef : entriesFor k net (titleOf m) (authorOf m) = [zeroEntry (titleOf m)] := by
    unfold entriesFor
    rw [if_pos (itemQueried_title hq)]
    cases k with
    | false => rfl
    | true =>
      rcases hfail with hk | hf
      · exact absurd hk (by simp)
      · have hff := search_found_false net (titleOf m) (authorOf m) hf
        rw [if_pos rfl, if_neg (by simp [hff])]
  have hz : itemEntries k net m = [zeroEntry (titleOf m)] := by
    cases m with
    | other => simp [itemQueried] at hq
    | str s =>
      unfold itemEntries
      exact hef
    | dict d =>
      have hq2 := hq
      unfold itemQueried at hq2
      dsimp only at hq2
      split_ifs at hq2 with h1 h2 h3
      unfold itemEntries
      dsimp only
      rw [if_neg h1, if_neg h2]
      exact hef
  exact ⟨hz, _, search_by_metadata_ok k net md ms h (List.ne_nil_of_mem hm), rfl, rfl⟩

/-- Claim C9 witness: the theorem at a concrete bare-title item with a
raising network oracle and a configured credential. -/
theorem C9_witness :
    itemEntries true netNone (Material.str "Calculus") = [zeroEntry "Calculus"] :=
  (C9_not_found_isolated true netNone
    { reading_materials := some [Material.str "Calculus"] }
    [Material.str "Calculus"] (Material.str "Calculus") rfl (by simp) (by decide)
    (Or.inr (Or.inl ⟨"no network", rfl⟩))).1

end SA

